import Mathlib

/-!
Verification of the nogil cycle-collecting garbage collector and its
synchronization primitives, as a shallow embedding of
`Modules/gcmodule.c` and `Python/lock.c` in Lean 4.

Machine words (`uintptr_t`, `uint32_t`) are modelled as `Nat`; the bit
operations used by the source (`&`, `|`, `<<`, `>>`) are modelled with the
corresponding `Nat` bitwise operations.  Pointers that are only compared
for identity (thread states, waiter links) are modelled as `Nat` ids.
-/

namespace Nogil

/-! ## GC header bits

Modelled from the spec: the bit layout of the `_gc_prev` header word
(`pycore_gc.h` is not among the provided sources).  The low bits hold the
`TRACKED`, `FINALIZED` and `UNREACHABLE` flags; the remaining bits above
`_PyGC_PREV_SHIFT` hold the `gc_refs` overlay (a back pointer between
collections). -/

def GC_TRACKED_MASK : Nat := 1

/-- Modelled from the spec: `FINALIZED` flag bit of `_gc_prev`. -/
def GC_FINALIZED_MASK : Nat := 2

/-- Modelled from the spec: `UNREACHABLE` flag bit of `_gc_prev`
(`_PyGC_PREV_MASK_UNREACHABLE`). -/
def GC_UNREACHABLE_MASK : Nat := 4

/-- Modelled from the spec: shift of the `gc_refs` overlay inside `_gc_prev`. -/
def GC_PREV_SHIFT : Nat := 3

/-- A GC header: the `{_gc_prev, _gc_next}` word pair of `PyGC_Head`. -/
structure PyGC_Head where
  _gc_next : Nat
  _gc_prev : Nat
  deriving DecidableEq, Repr

/-- The body of the second (superseding) definition of `gc_list_clear`
(gcmodule.c:287-298) applied to one list node: `gc->_gc_next = 0;
gc->_gc_prev &= (GC_TRACKED_MASK | GC_FINALIZED_MASK);`. -/
def gc_list_clear_node (g : PyGC_Head) : PyGC_Head :=
  { _gc_next := 0
    _gc_prev := g._gc_prev &&& (GC_TRACKED_MASK ||| GC_FINALIZED_MASK) }

/-- `gc_list_clear` (second definition, gcmodule.c:287-298): walk the list,
reset every node's `_gc_next` to 0 and keep only the `TRACKED` and
`FINALIZED` bits of `_gc_prev`.  The nodes of the doubly-linked list are
modelled as the list of its elements. -/
def gc_list_clear (l : List PyGC_Head) : List PyGC_Head :=
  l.map gc_list_clear_node

/-! ## Biased refcount model

Modelled from the spec: `ref_local` holds `(count << shift) | immortal_bit`
and `ref_shared` holds `(count << shift) | merged | queued`
(`pycore_refcnt.h` is not among the provided sources).  The shift and flag
constants below realize that layout. -/

def _Py_REF_LOCAL_SHIFT : Nat := 1

/-- Modelled from the spec: immortal bit of `ob_ref_local`. -/
def _Py_REF_IMMORTAL_MASK : Nat := 1

/-- Modelled from the spec: shift of the shared count inside `ob_ref_shared`. -/
def _Py_REF_SHARED_SHIFT : Nat := 2

/-- Modelled from the spec: `merged` flag bit of `ob_ref_shared`. -/
def _Py_REF_MERGED_MASK : Nat := 1

/-- Modelled from the spec: `queued` flag bit of `ob_ref_shared`. -/
def _Py_REF_QUEUED_MASK : Nat := 2

/-- The refcount fields of a `PyObject` header. -/
structure PyObjectRC where
  ob_ref_local : Nat
  ob_ref_shared : Nat
  ob_tid : Nat
  deriving DecidableEq, Repr

/-- `_PyRef_UnpackLocal`: the owning-thread count stored in `ob_ref_local`. -/
def localCount (op : PyObjectRC) : Nat :=
  op.ob_ref_local >>> _Py_REF_LOCAL_SHIFT

/-- `_PyRef_UnpackLocal`: the immortal bit of `ob_ref_local`. -/
def isImmortal (op : PyObjectRC) : Bool :=
  op.ob_ref_local &&& _Py_REF_IMMORTAL_MASK != 0

/-- `_PyRef_UnpackShared`: the shared count stored in `ob_ref_shared`. -/
def sharedCount (op : PyObjectRC) : Nat :=
  op.ob_ref_shared >>> _Py_REF_SHARED_SHIFT

/-- The logical reference count `local + shared` (`_Py_GC_REFCNT`). -/
def logicalRefcount (op : PyObjectRC) : Nat :=
  localCount op + sharedCount op

/-- `incref_merge` (gcmodule.c:1044-1061): adds one to the refcount and
merges the local field into the shared field:
`ob_ref_shared += (local + 1) << _Py_REF_SHARED_SHIFT;
 ob_ref_shared |= _Py_REF_MERGED_MASK; ob_ref_local = 0; ob_tid = 0;`. -/
def incref_merge (op : PyObjectRC) : PyObjectRC :=
  { ob_ref_shared :=
      (op.ob_ref_shared + ((localCount op + 1) <<< _Py_REF_SHARED_SHIFT)) |||
        _Py_REF_MERGED_MASK
    ob_ref_local := 0
    ob_tid := 0 }

/-! ## GC module state and threshold -/

/-- The fields of `_gc_runtime_state` used by `collect`, `update_gc_threshold`
and `gc_set_threshold`, together with the runtime facts relevant to the
collection prologue (whether the caller holds `stoptheworld_mutex` and
whether the world is stopped). -/
structure GCState where
  collecting : Bool
  gc_live : Int
  gc_scale : Int
  gc_threshold : Int
  mutexHeld : Bool
  worldStopped : Bool
  deriving DecidableEq, Repr

/-- `update_gc_threshold` (gcmodule.c:1562-1571):
`threshold = live + (live * gc_scale) / 100; if (threshold < 7000) threshold
= 7000;`.  C division on signed operands truncates toward zero, which is
`Int.tdiv`. -/
def update_gc_threshold (g : GCState) : GCState :=
  let live := g.gc_live
  let threshold := live + Int.tdiv (live * g.gc_scale) 100
  let threshold := if threshold < 7000 then 7000 else threshold
  { g with gc_threshold := threshold }

/-- `gc_set_threshold` (gcmodule.c:1981-1997): stores `threshold0` into
`gcstate->gc_threshold`; `threshold1`/`threshold2` are parsed but ignored. -/
def gc_set_threshold (threshold0 : Int) (g : GCState) : GCState :=
  { g with gc_threshold := threshold0 }

/-- The spec's threshold formula read literally with integer arithmetic:
`gc_threshold = max(7000, live * (1 + gc_scale/100))`. -/
def spec_gc_threshold (live scale : Int) : Int :=
  max 7000 (live * (1 + Int.tdiv scale 100))

/-! ## `collect` eligibility and prologue (gcmodule.c:1573-1652) -/

inductive GCReason where
  | heap
  | shutdown
  | manual
  deriving DecidableEq, Repr

/-- Modelled from the spec: `_PyGC_ShouldCollect` (defined in the missing
`pycore_gc.h`) — a heap-triggered collection is due once the live-object
count has reached `gc_threshold`. -/
def _PyGC_ShouldCollect (g : GCState) : Bool :=
  g.gc_threshold ≤ g.gc_live

/-- `gc_reason_is_valid` (gcmodule.c:1573-1580). -/
def gc_reason_is_valid (g : GCState) (reason : GCReason) : Bool :=
  match reason with
  | .heap => _PyGC_ShouldCollect g
  | _ => true

/-- How a call to `collect` leaves the prologue (gcmodule.c:1588-1652):
either it returns early with a value (performing no collection), or control
reaches the body of the collection, or it self-deadlocks re-acquiring the
already-held `stoptheworld_mutex`. -/
inductive CollectOutcome where
  | earlyReturn (ret : Int) (s : GCState)
  | deadlocked (s : GCState)
  | fullCollection (s : GCState)
  deriving DecidableEq, Repr

/-- The prologue of `collect(tstate, reason)` (gcmodule.c:1588-1652),
translated branch for branch:

1. `if (gcstate->collecting) return 0;`
2. `if (tstate->cant_stop_wont_stop) return 0;`
3. `_PyMutex_lock(&runtime->stoptheworld_mutex);`
4. `if (!gc_reason_is_valid(...)) { _PyMutex_unlock(...); return 0; }`
5. `_PyRuntimeState_StopTheWorld(runtime);`
6. `gcstate->collecting = 1;`
7. `invoke_gc_callback("start")` (no modelled state change)
8. `if (tstate->cant_stop_wont_stop) return 0;`
9. `if (!CAS(&gcstate->collecting, 0, 1)) return 0;`
10. `if (!gc_reason_is_valid(...)) { collecting = 0; return 0; }`
11. `_PyMutex_lock(&stoptheworld_mutex);` — a second acquisition of the
    same non-recursive mutex, modelled as a deadlock when already held,
12. `_PyRuntimeState_StopTheWorld(...); ...` and the collection body.

`cant_stop` is the caller's `tstate->cant_stop_wont_stop` flag. -/
def collect (cant_stop : Bool) (reason : GCReason) (s : GCState) : CollectOutcome :=
  if s.collecting then .earlyReturn 0 s
  else if cant_stop then .earlyReturn 0 s
  else
    let s := { s with mutexHeld := true }
    if ¬ gc_reason_is_valid s reason then
      .earlyReturn 0 { s with mutexHeld := false }
    else
      let s := { s with worldStopped := true }
      let s := { s with collecting := true }
      if cant_stop then .earlyReturn 0 s
      else if s.collecting then .earlyReturn 0 s
      else
        let s := { s with collecting := true }
        if ¬ gc_reason_is_valid s reason then
          .earlyReturn 0 { s with collecting := false }
        else if s.mutexHeld then .deadlocked s
        else .fullCollection { s with mutexHeld := true, worldStopped := true }

/-- `gc_collect_impl` (gcmodule.c:1918-1930): reject generations outside
`[0, 3)` with `ValueError` without collecting; otherwise run
`collect(tstate, GC_REASON_MANUAL)`. -/
def gc_collect_impl (generation : Int) (cant_stop : Bool) (s : GCState) :
    Except String CollectOutcome :=
  if generation < 0 ∨ 3 ≤ generation then .error "invalid generation"
  else .ok (collect cant_stop .manual s)

/-! ## Synchronization primitives (Python/lock.c)

Modelled from the spec: the word-state constants of `lock.h` (not among the
provided sources): `UNLOCKED=0`, `LOCKED=1`, with the upper bits of a mutex
word holding a waiter pointer and `HAS_PARKED=2` on events and recursive
mutexes. -/

/-- A raw-mutex word: bit 0 is `LOCKED`, the remaining bits (`v & ~1`) are
the top of the waiter stack (0 when empty). -/
structure RawMutexWord where
  locked : Bool
  waiter : Nat
  deriving DecidableEq, Repr

/-- The effect a lock-c routine has besides updating its word. -/
inductive LockEffect where
  | returned
  | signaled (tstate : Nat)
  | unparkedAll
  | fatalError (msg : String)
  deriving DecidableEq, Repr

/-- `_PyRawMutex_unlock_slow` (lock.c:88-112) in a quiescent environment
(each CAS succeeds against the loaded value).  `next_waiter` gives each
waiting thread's `os->next_waiter` link; `0` is the null thread pointer. -/
def _PyRawMutex_unlock_slow (next_waiter : Nat → Nat) (m : RawMutexWord) :
    RawMutexWord × LockEffect :=
  if m.locked = false then
    (m, .fatalError "unlocking mutex that is not locked")
  else if m.waiter ≠ 0 then
    ({ locked := false, waiter := next_waiter m.waiter }, .signaled m.waiter)
  else
    ({ locked := false, waiter := 0 }, .returned)

/-- A raw-event word: `UNLOCKED`, `LOCKED` (= notified), or a pointer to
the single waiting thread. -/
inductive RawEventWord where
  | unlocked
  | locked
  | waiter (tstate : Nat)
  deriving DecidableEq, Repr

/-- `_PyRawEvent_Notify` (lock.c:114-128): exchange `LOCKED` into the word;
a previous `UNLOCKED` just returns, a previous `LOCKED` is a fatal
duplicate notification, and a stored waiter is signaled. -/
def _PyRawEvent_Notify (v : RawEventWord) : RawEventWord × LockEffect :=
  (RawEventWord.locked,
    match v with
    | .unlocked => .returned
    | .locked => .fatalError "_PyRawEvent: duplicate notifications"
    | .waiter t => .signaled t)

/-- A (parking-lot) event word: `UNLOCKED`, `LOCKED` (= notified), or the
`HAS_PARKED` sentinel. -/
inductive EventWord where
  | unlocked
  | locked
  | hasParked
  deriving DecidableEq, Repr

/-- `_PyEvent_Notify` (lock.c:184-199): exchange `LOCKED` into the word;
both `UNLOCKED` and `LOCKED` previous states return silently (the fatal
error for a duplicate notification is commented out in the source), and
`HAS_PARKED` unparks all waiters. -/
def _PyEvent_Notify (v : EventWord) : EventWord × LockEffect :=
  (EventWord.locked,
    match v with
    | .unlocked => .returned
    | .locked => .returned
    | .hasParked => .unparkedAll)

/-- A recursive-mutex word: `v & ~3` is the owner thread id (0 when none),
bit 0 is `LOCKED`, bit 1 is `HAS_PARKED`. -/
structure RecursiveMutexWord where
  owner : Nat
  hasParked : Bool
  locked : Bool
  deriving DecidableEq, Repr

/-- A recursive mutex: the word plus the `recursions` counter. -/
structure RecursiveMutex where
  v : RecursiveMutexWord
  recursions : Nat
  deriving DecidableEq, Repr

/-- How `_PyRecursiveMutex_lock_slow` leaves the lock attempt. -/
inductive RecLockOutcome where
  | recursed
  | finalizerOwned
  | acquired
  | parked
  deriving DecidableEq, Repr

/-- `_PyRecursiveMutex_lock_slow` (lock.c:277-326).  `callerTid` is
`_Py_ThreadId()`; `isFinalizing` is
`_Py_atomic_load_ptr_relaxed(&_PyRuntime.finalizing) == tstate`.  The
contended loop is modelled by its first blocking step: when the word is
locked by another thread the caller sets `HAS_PARKED` and parks. -/
def _PyRecursiveMutex_lock_slow (callerTid : Nat) (isFinalizing : Bool)
    (m : RecursiveMutex) : RecursiveMutex × RecLockOutcome :=
  if m.v.owner = callerTid then
    ({ m with recursions := m.recursions + 1 }, .recursed)
  else if isFinalizing then
    ({ m with recursions := m.recursions + 1 }, .finalizerOwned)
  else if m.v.locked = false then
    ({ m with v := { owner := callerTid, hasParked := m.v.hasParked, locked := true } },
      .acquired)
  else
    ({ m with v := { m.v with hasParked := true } }, .parked)

/-! ## Finalizers (gcmodule.c:1377-1403) -/

/-- The per-object data read by `finalize_garbage`: the object's identity
and whether its type provides `tp_finalize`. -/
structure FinalizeObj where
  id : Nat
  hasFinalizer : Bool
  deriving DecidableEq, Repr

/-- `finalize_garbage` (gcmodule.c:1377-1403): walk `collectable`; for every
object whose `FINALIZED` bit is clear and whose type has `tp_finalize`, set
`FINALIZED` (`_PyGCHead_SET_FINALIZED`) and then call the finalizer.
Returns the updated `FINALIZED` bits together with the ids whose finalizer
was invoked, in call order. -/
def finalize_garbage (collectable : List FinalizeObj) (finalized : Nat → Bool) :
    (Nat → Bool) × List Nat :=
  match collectable with
  | [] => (finalized, [])
  | op :: rest =>
    if finalized op.id = false ∧ op.hasFinalizer then
      let r := finalize_garbage rest (fun i => if i = op.id then true else finalized i)
      (r.1, op.id :: r.2)
    else
      finalize_garbage rest finalized

/-! ## Refcount subtraction (gcmodule.c:631-762)

Objects are identified by `Nat` ids; `succ u` lists the objects visited by
`Py_TYPE(u)->tp_traverse` in visit order, and `tracked v` says whether `v`
is a tracked GC object (`_PyObject_IS_GC` together with `_PyGC_TRACKED`);
`refcount v` is `_Py_GC_REFCNT(v)`.  The gc_refs overlay on `_gc_prev` is
modelled as a map `Nat → Int`.  The `maybe_untrack` preprocessing of exact
tuples and dicts is not modelled: the working set is the list of objects
still tracked when `update_refs` links them into `young`. -/

/-- `visit_decref` (gcmodule.c:632-643): `gc_decref` the overlay of a
tracked successor. -/
def visit_decref (tracked : Nat → Bool) (refs : Nat → Int) (w : Nat) : Nat → Int :=
  if tracked w then fun v => if v = w then refs v - 1 else refs v else refs

/-- The gc_refs computation of `update_refs` for one object
(gcmodule.c:747-755): `gc_add_refs(gc, _Py_GC_REFCNT(op))` followed by
`tp_traverse(op, visit_decref, NULL)`. -/
def update_refs_obj (succ : Nat → List Nat) (tracked : Nat → Bool) (refcount : Nat → Int)
    (refs : Nat → Int) (u : Nat) : Nat → Int :=
  (succ u).foldl (visit_decref tracked) (fun v => if v = u then refs v + refcount u else refs v)

/-- The refcount-subtraction pass: `visit_heap(update_refs, &young)` applied
to the whole working set, starting from a cleared overlay. -/
def subtract_refs (succ : Nat → List Nat) (tracked : Nat → Bool) (refcount : Nat → Int)
    (workset : List Nat) : Nat → Int :=
  workset.foldl (update_refs_obj succ tracked refcount) (fun _ => 0)

/-- Number of references to `v` held by objects of the working set. -/
def internalRefs (succ : Nat → List Nat) (workset : List Nat) (v : Nat) : Int :=
  (workset.map fun u => ((succ u).count v : Int)).sum

/-! ## `move_unreachable` (gcmodule.c:821-966)

The one intrusive `young` list with its walk cursor is modelled as the
already-scanned prefix `young` plus the unscanned suffix `pending`; the
`unreachable` list is a separate list.  `refs` is the gc_refs overlay and
`flag` the `UNREACHABLE` bit of each object.  An object has `_gc_next != 0`
exactly when it is linked into one of the two lists, so the
`gc->_gc_next == 0` test of `visit_reachable` is membership in
`young ++ pending ++ unreachable`. -/

structure MoveState where
  young : List Nat
  pending : List Nat
  unreachable : List Nat
  refs : Nat → Int
  flag : Nat → Bool

/-- `visit_reachable` (gcmodule.c:821-882) applied to the traversal target
`w`:
* objects with `_gc_next == 0` (untracked, or lost across `fork`) are
  ignored;
* an object with the `UNREACHABLE` bit set is unlinked from `unreachable`,
  re-appended at the tail of the `young` list (`gc_list_append(gc,
  reachable)`), given `gc_refs = 1`, and its `UNREACHABLE` bit is cleared;
* an object with `gc_refs == 0` (not yet scanned) is given `gc_refs = 1`;
* any other object is left alone. -/
def visit_reachable (s : MoveState) (w : Nat) : MoveState :=
  if w ∈ s.young ∨ w ∈ s.pending ∨ w ∈ s.unreachable then
    if s.flag w then
      { young := s.young
        pending := s.pending ++ [w]
        unreachable := s.unreachable.erase w
        refs := fun v => if v = w then 1 else s.refs v
        flag := fun v => if v = w then false else s.flag v }
    else if s.refs w = 0 then
      { s with refs := fun v => if v = w then 1 else s.refs v }
    else s
  else s

/-- The loop of `move_unreachable` (gcmodule.c:896-966), with explicit
fuel; `none` means the fuel ran out before the walk reached the sentinel.
Each iteration examines the object `u` under the cursor:
* `gc_refs != 0`: `u` is reachable; it stays in the `young` list (the
  cursor moves past it) and `tp_traverse(op, visit_reachable, young)` is
  run on its successors;
* `gc_refs == 0`: `u` is moved to the tail of `unreachable` and its
  `UNREACHABLE` bit is set. -/
def move_unreachable_fuel (succ : Nat → List Nat) : Nat → MoveState → Option MoveState
  | 0, _ => none
  | fuel + 1, s =>
    match s.pending with
    | [] => some s
    | u :: rest =>
      if s.refs u ≠ 0 then
        move_unreachable_fuel succ fuel
          ((succ u).foldl visit_reachable
            { s with young := s.young ++ [u], pending := rest })
      else
        move_unreachable_fuel succ fuel
          { s with pending := rest
                   unreachable := s.unreachable ++ [u]
                   flag := fun v => if v = u then true else s.flag v }

/-- The state at entry of `move_unreachable(young, unreachable)`: nothing
scanned yet, `unreachable` freshly initialized. -/
def initMoveState (young : List Nat) (refs : Nat → Int) (flag : Nat → Bool) : MoveState :=
  { young := [], pending := young, unreachable := [], refs := refs, flag := flag }

/-- Reachability from outside the original `young` list: an object of the
working set `V` is reachable from outside iff it is directly referenced
from outside (`root`), or some object reachable from outside refers to it
through `tp_traverse`. -/
inductive ReachableOutside (succ : Nat → List Nat) (V : List Nat) (root : Nat → Prop) :
    Nat → Prop where
  | base {v : Nat} : v ∈ V → root v → ReachableOutside succ V root v
  | step {u v : Nat} : ReachableOutside succ V root u → v ∈ V → v ∈ succ u →
      ReachableOutside succ V root v

/-! ## Invariants of the `move_unreachable` walk -/

/-- Core invariant of the walk, relative to the working set `V`, the
gc_refs values `refs0` computed by the subtraction pass, and the
external-reachability predicate `R`:
* the three lists hold exactly the objects of `V`;
* the `UNREACHABLE` bit marks exactly the members of the `unreachable`
  list;
* objects in `unreachable` have `gc_refs = 0`;
* `gc_refs` values are either the initial ones or have been set to 1;
* an object of the working set with nonzero `gc_refs` is externally
  reachable, and every object the cursor has passed is externally
  reachable. -/
structure MoveCore (succ : Nat → List Nat) (V : List Nat) (refs0 : Nat → Int)
    (R : Nat → Prop) (s : MoveState) : Prop where
  ms : (s.young : Multiset Nat) + (s.pending : Multiset Nat) +
      (s.unreachable : Multiset Nat) = (V : Multiset Nat)
  flag_iff : ∀ v, s.flag v = true ↔ v ∈ s.unreachable
  unreach_zero : ∀ v ∈ s.unreachable, s.refs v = 0
  refs_cases : ∀ v, s.refs v = refs0 v ∨ s.refs v = 1
  sound : ∀ v ∈ V, s.refs v ≠ 0 → R v
  young_R : ∀ v ∈ s.young, R v

/-- Every working-set successor of an object of `Y` has nonzero
`gc_refs`. -/
def closureAt (succ : Nat → List Nat) (V : List Nat) (s : MoveState) (Y : List Nat) : Prop :=
  ∀ u ∈ Y, ∀ w ∈ succ u, w ∈ V → s.refs w ≠ 0

/-- Full loop invariant: the core invariant plus closure of the scanned
prefix. -/
def MoveInv (succ : Nat → List Nat) (V : List Nat) (refs0 : Nat → Int)
    (R : Nat → Prop) (s : MoveState) : Prop :=
  MoveCore succ V refs0 R s ∧ closureAt succ V s s.young

/-! ## A concrete working set used for evaluations -/

/-- Example traversal: objects 1 and 2 form a cycle, object 3 refers to 1. -/
def exSucc : Nat → List Nat := fun v =>
  if v = 1 then [2] else if v = 2 then [1] else if v = 3 then [1] else []

/-- Example refcounts: object 1 is held by 2 and 3, objects 2 and 3 are
held once each (3 from outside the working set). -/
def exRefcount : Nat → Int := fun v => if v = 1 then 2 else 1

/-- Example external reference counts: only object 3 is referenced from
outside the working set. -/
def exExternal : Nat → Nat := fun v => if v = 3 then 1 else 0

/-! # Theorems -/

/-! ## Bitwise helper lemmas -/

theorem land_three_land_four (x : Nat) : (x &&& 3) &&& 4 = 0 := by
  rw [Nat.land_assoc, show (3 &&& 4 : Nat) = 0 from rfl, Nat.and_zero]

theorem land_three_land_one (x : Nat) : (x &&& 3) &&& 1 = x &&& 1 := by
  rw [Nat.land_assoc, show (3 &&& 1 : Nat) = 1 from rfl]

theorem land_three_land_two (x : Nat) : (x &&& 3) &&& 2 = x &&& 2 := by
  rw [Nat.land_assoc, show (3 &&& 2 : Nat) = 2 from rfl]

theorem land_three_shiftRight_three (x : Nat) : (x &&& 3) >>> 3 = 0 := by
  have h : x &&& 3 ≤ 3 := Nat.and_le_right
  rw [Nat.shiftRight_eq_div_pow]
  exact Nat.div_eq_of_lt (by omega)

theorem lor_one_shiftRight_two (y : Nat) : (y ||| 1) >>> 2 = y >>> 2 := by
  apply Nat.eq_of_testBit_eq
  intro i
  simp only [Nat.testBit_shiftRight, Nat.testBit_or]
  have h1 : Nat.testBit 1 (2 + i) = false :=
    Nat.testBit_lt_two_pow (by have := Nat.one_lt_two_pow (n := 2 + i) (by omega); omega)
  rw [h1, Bool.or_false]

theorem lor_one_land_one (y : Nat) : (y ||| 1) &&& 1 = 1 := by
  apply Nat.eq_of_testBit_eq
  intro i
  simp only [Nat.testBit_and, Nat.testBit_or]
  cases i with
  | zero => simp
  | succ n => simp [Nat.testBit_succ]

theorem add_shiftLeft_two_shiftRight_two (x k : Nat) :
    (x + (k <<< 2)) >>> 2 = x >>> 2 + k := by
  rw [Nat.shiftLeft_eq, Nat.shiftRight_eq_div_pow, Nat.shiftRight_eq_div_pow]
  simp [Nat.add_mul_div_right]

/-! ## C3: `incref_merge` -/

/-- C3: for every non-immortal object, `incref_merge` zeroes `ob_ref_local`
and `ob_tid`, sets the `merged` flag in `ob_ref_shared`, and leaves the
logical reference count (local count plus shared count) exactly one greater
than before the call. -/
theorem incref_merge_correct (op : PyObjectRC) (_h : isImmortal op = false) :
    (incref_merge op).ob_ref_local = 0 ∧
    (incref_merge op).ob_tid = 0 ∧
    (incref_merge op).ob_ref_shared &&& _Py_REF_MERGED_MASK = 1 ∧
    logicalRefcount (incref_merge op) = logicalRefcount op + 1 := by
  refine ⟨rfl, rfl, ?_, ?_⟩
  · exact lor_one_land_one _
  · show localCount _ + sharedCount _ = localCount op + sharedCount op + 1
    have hl : localCount (incref_merge op) = 0 := by
      simp [localCount, incref_merge]
    have hs : sharedCount (incref_merge op) =
        sharedCount op + (localCount op + 1) := by
      show ((op.ob_ref_shared + ((localCount op + 1) <<< _Py_REF_SHARED_SHIFT)) |||
        _Py_REF_MERGED_MASK) >>> _Py_REF_SHARED_SHIFT = _
      rw [show _Py_REF_MERGED_MASK = 1 from rfl, show _Py_REF_SHARED_SHIFT = 2 from rfl,
        lor_one_shiftRight_two, add_shiftLeft_two_shiftRight_two]
      rfl
    rw [hl, hs]
    omega

/-- C3 witness: `incref_merge` at a concrete non-immortal object
(local count 5, shared count 3 with the `queued` flag set). -/
theorem incref_merge_correct_witness :
    isImmortal ⟨10, 14, 42⟩ = false ∧
    ((incref_merge ⟨10, 14, 42⟩).ob_ref_local = 0 ∧
     (incref_merge ⟨10, 14, 42⟩).ob_tid = 0 ∧
     (incref_merge ⟨10, 14, 42⟩).ob_ref_shared &&& _Py_REF_MERGED_MASK = 1 ∧
     logicalRefcount (incref_merge ⟨10, 14, 42⟩) = logicalRefcount ⟨10, 14, 42⟩ + 1) :=
  ⟨by decide, incref_merge_correct ⟨10, 14, 42⟩ (by decide)⟩

/-! ## C4: `gc_list_clear` and the header flags after collection -/

/-- C4: `gc_list_clear` (the second, superseding definition) leaves every
node of the list with `_gc_next = 0`, preserves exactly the `TRACKED` and
`FINALIZED` bits of `_gc_prev`, and clears the `UNREACHABLE` bit and the
whole `gc_refs` overlay above `_PyGC_PREV_SHIFT`. -/
theorem gc_list_clear_correct (l : List PyGC_Head) (g' : PyGC_Head)
    (h : g' ∈ gc_list_clear l) :
    ∃ g ∈ l, g' = gc_list_clear_node g ∧
      g'._gc_next = 0 ∧
      g'._gc_prev &&& GC_UNREACHABLE_MASK = 0 ∧
      g'._gc_prev >>> GC_PREV_SHIFT = 0 ∧
      g'._gc_prev &&& GC_TRACKED_MASK = g._gc_prev &&& GC_TRACKED_MASK ∧
      g'._gc_prev &&& GC_FINALIZED_MASK = g._gc_prev &&& GC_FINALIZED_MASK := by
  obtain ⟨g, hg, rfl⟩ := List.mem_map.mp h
  refine ⟨g, hg, rfl, rfl, ?_, ?_, ?_, ?_⟩
  · exact land_three_land_four _
  · exact land_three_shiftRight_three _
  · exact land_three_land_one _
  · exact land_three_land_two _

/-- C4 witness: `gc_list_clear` applied to a one-node list whose node has
every flag and a gc_refs overlay set. -/
theorem gc_list_clear_correct_witness :
    (⟨0, 3⟩ : PyGC_Head) ∈ gc_list_clear [⟨81, 127⟩] ∧
    ∃ g ∈ [(⟨81, 127⟩ : PyGC_Head)], (⟨0, 3⟩ : PyGC_Head) = gc_list_clear_node g ∧
      (⟨0, 3⟩ : PyGC_Head)._gc_next = 0 ∧
      (⟨0, 3⟩ : PyGC_Head)._gc_prev &&& GC_UNREACHABLE_MASK = 0 ∧
      (⟨0, 3⟩ : PyGC_Head)._gc_prev >>> GC_PREV_SHIFT = 0 ∧
      (⟨0, 3⟩ : PyGC_Head)._gc_prev &&& GC_TRACKED_MASK = g._gc_prev &&& GC_TRACKED_MASK ∧
      (⟨0, 3⟩ : PyGC_Head)._gc_prev &&& GC_FINALIZED_MASK = g._gc_prev &&& GC_FINALIZED_MASK :=
  ⟨by decide, gc_list_clear_correct [⟨81, 127⟩] ⟨0, 3⟩ (by decide)⟩

/-! ## C7: the collection threshold -/

/-- C7 counterexample: with `gc_live = 10000` and `gc_scale = 150`, the
code computes `live + (live * gc_scale) / 100 = 25000`, while the claim's
formula `max(7000, live * (1 + gc_scale/100))` computed with integer
arithmetic gives `10000 * (1 + 1) = 20000`. -/
theorem update_gc_threshold_formula_counterexample :
    (update_gc_threshold ⟨false, 10000, 150, 7000, false, false⟩).gc_threshold ≠
      spec_gc_threshold 10000 150 := by
  decide

/-- C7 (amended): after `update_gc_threshold` — run at the end of every
completed collection — `gc_threshold` equals
`max(7000, live + (live * gc_scale) / 100)` computed from the current
live-object count with integer arithmetic, regardless of any value
previously stored by `gc_set_threshold`; a user-provided threshold is
stored verbatim and therefore persists only until the next completed
collection. -/
theorem update_gc_threshold_overwrites_user_threshold (g : GCState) (t0 : Int) :
    (gc_set_threshold t0 g).gc_threshold = t0 ∧
    (update_gc_threshold (gc_set_threshold t0 g)).gc_threshold =
      max 7000 (g.gc_live + Int.tdiv (g.gc_live * g.gc_scale) 100) ∧
    (update_gc_threshold (gc_set_threshold t0 g)).gc_threshold =
      (update_gc_threshold g).gc_threshold := by
  refine ⟨rfl, ?_, rfl⟩
  show (if g.gc_live + Int.tdiv (g.gc_live * g.gc_scale) 100 < 7000 then (7000 : Int)
    else g.gc_live + Int.tdiv (g.gc_live * g.gc_scale) 100) = _
  rcases le_or_lt 7000 (g.gc_live + Int.tdiv (g.gc_live * g.gc_scale) 100) with h | h
  · rw [if_neg (by omega), max_eq_right h]
  · rw [if_pos h, max_eq_left (by omega)]

/-! ## C8: fatal invariant violations in the raw synchronization primitives -/

/-- C8: unlocking a raw mutex whose word is in the `UNLOCKED` state, or
notifying a raw event that is already `LOCKED` (notified), hits the fatal
error branch; when the mutex is locked, respectively the event not yet
notified, the fatal branch is unreachable. -/
theorem raw_mutex_event_fatal_branches (next_waiter : Nat → Nat) (m : RawMutexWord)
    (v : RawEventWord) :
    (m.locked = false →
      (_PyRawMutex_unlock_slow next_waiter m).2 =
        .fatalError "unlocking mutex that is not locked") ∧
    (m.locked = true →
      ∀ msg, (_PyRawMutex_unlock_slow next_waiter m).2 ≠ .fatalError msg) ∧
    ((_PyRawEvent_Notify .locked).2 =
      .fatalError "_PyRawEvent: duplicate notifications") ∧
    (v ≠ .locked → ∀ msg, (_PyRawEvent_Notify v).2 ≠ .fatalError msg) := by
  refine ⟨?_, ?_, rfl, ?_⟩
  · intro h
    simp [_PyRawMutex_unlock_slow, h]
  · intro h msg
    rcases m with ⟨l, w⟩
    have hl : l = true := h
    subst hl
    by_cases hw : w ≠ 0 <;> simp [_PyRawMutex_unlock_slow, hw]
  · intro h msg
    cases v with
    | unlocked => simp [_PyRawEvent_Notify]
    | locked => exact absurd rfl h
    | waiter t => simp [_PyRawEvent_Notify]

/-- C8 witness: the four branches at concrete words — an unlocked mutex, a
locked mutex with one waiter, the notified raw event, and an un-notified
raw event. -/
theorem raw_mutex_event_fatal_branches_witness :
    ((⟨false, 0⟩ : RawMutexWord).locked = false →
      (_PyRawMutex_unlock_slow (fun _ => 0) ⟨false, 0⟩).2 =
        .fatalError "unlocking mutex that is not locked") ∧
    ((⟨true, 8⟩ : RawMutexWord).locked = true →
      ∀ msg, (_PyRawMutex_unlock_slow (fun _ => 0) ⟨true, 8⟩).2 ≠ .fatalError msg) ∧
    ((_PyRawEvent_Notify .locked).2 =
      .fatalError "_PyRawEvent: duplicate notifications") ∧
    (RawEventWord.unlocked ≠ .locked →
      ∀ msg, (_PyRawEvent_Notify .unlocked).2 ≠ .fatalError msg) :=
  ⟨(raw_mutex_event_fatal_branches (fun _ => 0) ⟨false, 0⟩ .unlocked).1,
   (raw_mutex_event_fatal_branches (fun _ => 0) ⟨true, 8⟩ .unlocked).2.1,
   (raw_mutex_event_fatal_branches (fun _ => 0) ⟨true, 8⟩ .unlocked).2.2.1,
   (raw_mutex_event_fatal_branches (fun _ => 0) ⟨false, 0⟩ .unlocked).2.2.2⟩

/-! ## C9: the finalizing-thread shortcut of the recursive mutex -/

/-- C9: when the calling thread is the runtime's finalizing thread and does
not already own the lock by thread id, `_PyRecursiveMutex_lock_slow` only
increments the recursion counter and returns: the mutex word `m->v` is
unchanged (no `LOCKED` bit set, no owner recorded) and the thread does not
park. -/
theorem recursive_mutex_finalizing_shortcut (callerTid : Nat) (m : RecursiveMutex)
    (h : m.v.owner ≠ callerTid) :
    _PyRecursiveMutex_lock_slow callerTid true m =
      ({ m with recursions := m.recursions + 1 }, .finalizerOwned) ∧
    (_PyRecursiveMutex_lock_slow callerTid true m).1.v = m.v := by
  constructor
  · simp [_PyRecursiveMutex_lock_slow, h]
  · simp [_PyRecursiveMutex_lock_slow, h]

/-- C9 witness: the finalizing thread (id 64) locking a mutex owned by
thread 8 with one recursion outstanding. -/
theorem recursive_mutex_finalizing_shortcut_witness :
    (⟨⟨8, false, true⟩, 1⟩ : RecursiveMutex).v.owner ≠ 64 ∧
    (_PyRecursiveMutex_lock_slow 64 true ⟨⟨8, false, true⟩, 1⟩ =
      (⟨⟨8, false, true⟩, 2⟩, .finalizerOwned) ∧
     (_PyRecursiveMutex_lock_slow 64 true ⟨⟨8, false, true⟩, 1⟩).1.v = ⟨8, false, true⟩) :=
  ⟨by decide, recursive_mutex_finalizing_shortcut 64 ⟨⟨8, false, true⟩, 1⟩ (by decide)⟩

/-! ## C2 and C6: the `collect` prologue -/

/-- Every call to `collect` returns early: the unconditional store
`gcstate->collecting = 1` (gcmodule.c:1622) makes the later
`CAS(&gcstate->collecting, 0, 1)` (gcmodule.c:1636) fail on every
execution that reaches it, so control never enters the collection body. -/
theorem collect_is_earlyReturn (c : Bool) (r : GCReason) (s : GCState) :
    ∃ ret s', collect c r s = .earlyReturn ret s' := by
  rcases s with ⟨col, live, scale, thr, mh, ws⟩
  cases col
  · cases c
    · by_cases h3 : gc_reason_is_valid ⟨false, live, scale, thr, true, ws⟩ r
      · exact ⟨0, ⟨true, live, scale, thr, true, true⟩, by simp [collect, h3]⟩
      · exact ⟨0, ⟨false, live, scale, thr, false, ws⟩, by simp [collect, h3]⟩
    · exact ⟨0, ⟨false, live, scale, thr, mh, ws⟩, by simp [collect]⟩
  · exact ⟨0, ⟨true, live, scale, thr, mh, ws⟩, by simp [collect]⟩

/-- C2 (code bug): at the failing input — no collection running, no
`cant_stop_wont_stop`, a manual reason, the mutex free and the world
running — `collect` returns 0 without collecting, but it does so *after*
stopping the world, while still holding the stop-the-world mutex and with
`collecting` left set: the early return at the failed
`CAS(&collecting, 0, 1)` releases nothing.  The first conjunct evaluates
the code at that input; the second shows every call ends in such an early
return. -/
theorem collect_early_return_leaves_world_stopped :
    collect false .manual ⟨false, 0, 100, 7000, false, false⟩ =
      .earlyReturn 0 ⟨true, 0, 100, 7000, true, true⟩ ∧
    ∀ (c : Bool) (r : GCReason) (s : GCState),
      ∃ ret s', collect c r s = .earlyReturn ret s' :=
  ⟨rfl, collect_is_earlyReturn⟩

/-- C6 (code bug): `gc.collect(generation)` raises `ValueError` for
`generation < 0` or `generation >= 3` without touching the collector
state, but for a valid generation it does not run a full collection: the
underlying `collect` always returns 0 from its prologue (with the world
left stopped), so the claimed count of deleted plus uncollectable objects
is never produced. -/
theorem gc_collect_impl_rejects_and_never_collects :
    gc_collect_impl (-1) false ⟨false, 0, 100, 7000, false, false⟩ =
      .error "invalid generation" ∧
    gc_collect_impl 3 false ⟨false, 0, 100, 7000, false, false⟩ =
      .error "invalid generation" ∧
    gc_collect_impl 2 false ⟨false, 0, 100, 7000, false, false⟩ =
      .ok (.earlyReturn 0 ⟨true, 0, 100, 7000, true, true⟩) ∧
    ∀ (g : Int) (c : Bool) (s s' : GCState),
      gc_collect_impl g c s ≠ .ok (.fullCollection s') := by
  refine ⟨rfl, rfl, rfl, ?_⟩
  intro g c s s' h
  unfold gc_collect_impl at h
  split_ifs at h
  obtain ⟨ret, s'', hc⟩ := collect_is_earlyReturn c .manual s
  rw [hc] at h
  exact CollectOutcome.noConfusion (Except.ok.inj h)

/-! ## C5: `finalize_garbage` runs each finalizer at most once -/

theorem finalize_garbage_flag_mono (l : List FinalizeObj) (f : Nat → Bool) (i : Nat)
    (h : f i = true) : (finalize_garbage l f).1 i = true := by
  induction l generalizing f with
  | nil => exact h
  | cons op rest ih =>
    unfold finalize_garbage
    split_ifs with hc
    · exact ih _ (by simp [h])
    · exact ih _ h

theorem finalize_garbage_not_called_of_finalized (l : List FinalizeObj) (f : Nat → Bool)
    (i : Nat) (h : f i = true) : i ∉ (finalize_garbage l f).2 := by
  induction l generalizing f with
  | nil => simp [finalize_garbage]
  | cons op rest ih =>
    unfold finalize_garbage
    split_ifs with hc
    · intro hmem
      rcases List.mem_cons.mp hmem with rfl | hmem
      · rw [hc.1] at h; cases h
      · exact ih _ (by simp [h]) hmem
    · exact ih _ h

theorem finalize_garbage_called_has_finalizer (l : List FinalizeObj) (f : Nat → Bool)
    (i : Nat) (h : i ∈ (finalize_garbage l f).2) :
    ∃ op ∈ l, op.id = i ∧ op.hasFinalizer = true := by
  induction l generalizing f with
  | nil => simp [finalize_garbage] at h
  | cons op rest ih =>
    unfold finalize_garbage at h
    split_ifs at h with hc
    · rcases List.mem_cons.mp h with rfl | h
      · exact ⟨op, List.mem_cons_self _ _, rfl, hc.2⟩
      · obtain ⟨op', hm, he⟩ := ih _ h
        exact ⟨op', List.mem_cons_of_mem _ hm, he⟩
    · obtain ⟨op', hm, he⟩ := ih _ h
      exact ⟨op', List.mem_cons_of_mem _ hm, he⟩

theorem finalize_garbage_called_flag_set (l : List FinalizeObj) (f : Nat → Bool)
    (i : Nat) (h : i ∈ (finalize_garbage l f).2) : (finalize_garbage l f).1 i = true := by
  induction l generalizing f with
  | nil => simp [finalize_garbage] at h
  | cons op rest ih =>
    unfold finalize_garbage at h ⊢
    split_ifs at h ⊢ with hc
    · rcases List.mem_cons.mp h with rfl | h
      · exact finalize_garbage_flag_mono _ _ _ (by simp)
      · exact ih _ h
    · exact ih _ h

theorem finalize_garbage_calls_nodup (l : List FinalizeObj) (f : Nat → Bool) :
    (finalize_garbage l f).2.Nodup := by
  induction l generalizing f with
  | nil => simp [finalize_garbage]
  | cons op rest ih =>
    unfold finalize_garbage
    split_ifs with hc
    · exact List.nodup_cons.mpr
        ⟨finalize_garbage_not_called_of_finalized _ _ _ (by simp), ih _⟩
    · exact ih _

/-- C5: `finalize_garbage` invokes `tp_finalize` on an object only when
the object's `FINALIZED` bit is clear and its type has a finalizer, and
latches the bit; consequently no object is finalized twice within one run,
and an object finalized in this run is never finalized by any later run
started from the resulting `FINALIZED` bits (the resurrection phase and
all future collections). -/
theorem finalize_garbage_once (l : List FinalizeObj) (f : Nat → Bool) :
    (∀ i, f i = true → i ∉ (finalize_garbage l f).2) ∧
    (∀ i ∈ (finalize_garbage l f).2,
      ∃ op ∈ l, op.id = i ∧ op.hasFinalizer = true) ∧
    (∀ i ∈ (finalize_garbage l f).2, (finalize_garbage l f).1 i = true) ∧
    (finalize_garbage l f).2.Nodup ∧
    (∀ (l2 : List FinalizeObj), ∀ i ∈ (finalize_garbage l f).2,
      i ∉ (finalize_garbage l2 (finalize_garbage l f).1).2) :=
  ⟨fun i h => finalize_garbage_not_called_of_finalized l f i h,
   fun i h => finalize_garbage_called_has_finalizer l f i h,
   fun i h => finalize_garbage_called_flag_set l f i h,
   finalize_garbage_calls_nodup l f,
   fun l2 i h => finalize_garbage_not_called_of_finalized l2 _ i
     (finalize_garbage_called_flag_set l f i h)⟩

/-- C5 witness: an unreachable set with one finalizable object (id 5, bit
clear) and one already-`FINALIZED` object (id 7): only 5 is finalized, its
bit is latched, and a second collection over the same objects finalizes
nothing. -/
theorem finalize_garbage_once_witness :
    ((7 : Nat) ∈ (finalize_garbage [⟨5, true⟩, ⟨7, true⟩] (fun i => decide (i = 7))).2 →
      False) ∧
    (5 : Nat) ∈ (finalize_garbage [⟨5, true⟩, ⟨7, true⟩] (fun i => decide (i = 7))).2 ∧
    (finalize_garbage [⟨5, true⟩, ⟨7, true⟩] (fun i => decide (i = 7))).1 5 = true ∧
    ((5 : Nat) ∈ (finalize_garbage [⟨5, true⟩, ⟨7, true⟩]
        (finalize_garbage [⟨5, true⟩, ⟨7, true⟩] (fun i => decide (i = 7))).1).2 →
      False) :=
  ⟨fun h => (finalize_garbage_once [⟨5, true⟩, ⟨7, true⟩] (fun i => decide (i = 7))).1
      7 (by decide) h,
   by decide,
   (finalize_garbage_once [⟨5, true⟩, ⟨7, true⟩] (fun i => decide (i = 7))).2.2.1
      5 (by decide),
   fun h => (finalize_garbage_once [⟨5, true⟩, ⟨7, true⟩]
      (fun i => decide (i = 7))).2.2.2.2 [⟨5, true⟩, ⟨7, true⟩] 5 (by decide) h⟩

/-! ## C10: duplicate notification of the parking-lot event -/

/-- C10: notifying the (non-raw) event when it is already `LOCKED`
(notified) is a silent no-op — `_PyEvent_Notify` returns without error and
the word stays `LOCKED` — whereas the raw event treats a duplicate
notification as fatal. -/
theorem event_notify_duplicate_is_noop :
    _PyEvent_Notify .locked = (.locked, .returned) ∧
    (_PyRawEvent_Notify .locked).2 =
      .fatalError "_PyRawEvent: duplicate notifications" :=
  ⟨rfl, rfl⟩

/-! ## C1, part 1: the refcount-subtraction pass -/

theorem visit_decref_apply (tracked : Nat → Bool) (refs : Nat → Int) (a v : Nat) :
    visit_decref tracked refs a v =
      if v = a ∧ tracked a then refs v - 1 else refs v := by
  unfold visit_decref
  by_cases ha : tracked a
  · by_cases hv : v = a <;> simp [ha, hv]
  · simp [ha]

theorem visit_decref_fold_apply (tracked : Nat → Bool) (L : List Nat) (refs : Nat → Int)
    (v : Nat) :
    L.foldl (visit_decref tracked) refs v =
      refs v - (if tracked v then (L.count v : Int) else 0) := by
  induction L generalizing refs with
  | nil => simp
  | cons a L ih =>
    rw [List.foldl_cons, ih, visit_decref_apply]
    by_cases hv : v = a
    · subst hv
      by_cases ht : tracked v <;> simp [ht, List.count_cons] <;> push_cast <;> ring
    · by_cases ht : tracked v <;>
        simp [ht, hv, List.count_cons, fun h : a = v => hv h.symm]

theorem update_refs_obj_apply (succ : Nat → List Nat) (tracked : Nat → Bool)
    (refcount : Nat → Int) (refs : Nat → Int) (u v : Nat) :
    update_refs_obj succ tracked refcount refs u v =
      (if v = u then refs v + refcount u else refs v) -
        (if tracked v then ((succ u).count v : Int) else 0) := by
  unfold update_refs_obj
  rw [visit_decref_fold_apply]

theorem subtract_refs_fold (succ : Nat → List Nat) (tracked : Nat → Bool)
    (refcount : Nat → Int) (W : List Nat) (refs : Nat → Int) (v : Nat) :
    W.foldl (update_refs_obj succ tracked refcount) refs v =
      refs v + (W.count v : Int) * refcount v -
        (if tracked v then internalRefs succ W v else 0) := by
  induction W generalizing refs with
  | nil => simp [internalRefs]
  | cons u W ih =>
    rw [List.foldl_cons, ih, update_refs_obj_apply]
    unfold internalRefs
    by_cases hv : v = u
    · subst hv
      by_cases ht : tracked v <;> simp [ht, List.count_cons] <;> push_cast <;> ring
    · by_cases ht : tracked v <;>
        simp [ht, hv, List.count_cons, fun h : u = v => hv h.symm] <;> push_cast <;> ring

theorem subtract_refs_apply (succ : Nat → List Nat) (tracked : Nat → Bool)
    (refcount : Nat → Int) (V : List Nat) (v : Nat) (hnd : V.Nodup) (hv : v ∈ V)
    (ht : tracked v = true) :
    subtract_refs succ tracked refcount V v = refcount v - internalRefs succ V v := by
  unfold subtract_refs
  rw [subtract_refs_fold, List.count_eq_one_of_mem hnd hv, ht]
  simp

/-! ## C1, part 2: correctness of the `move_unreachable` walk -/

theorem moveCore_perm {succ : Nat → List Nat} {V : List Nat} {refs0 : Nat → Int}
    {R : Nat → Prop} {s : MoveState} (hc : MoveCore succ V refs0 R s) :
    List.Perm (s.young ++ s.pending ++ s.unreachable) V := by
  rw [← Multiset.coe_eq_coe]
  simpa [← Multiset.coe_add, add_assoc] using hc.ms

theorem moveCore_mem_iff {succ : Nat → List Nat} {V : List Nat} {refs0 : Nat → Int}
    {R : Nat → Prop} {s : MoveState} (hc : MoveCore succ V refs0 R s) (x : Nat) :
    x ∈ V ↔ x ∈ s.young ∨ x ∈ s.pending ∨ x ∈ s.unreachable := by
  rw [← (moveCore_perm hc).mem_iff]
  simp [List.mem_append, or_assoc]

theorem moveCore_unreach_nodup {succ : Nat → List Nat} {V : List Nat} {refs0 : Nat → Int}
    {R : Nat → Prop} {s : MoveState} (hnd : V.Nodup) (hc : MoveCore succ V refs0 R s) :
    s.unreachable.Nodup := by
  have h2 : (s.young ++ s.pending ++ s.unreachable).Nodup :=
    (moveCore_perm hc).nodup_iff.mpr hnd
  rw [List.nodup_append] at h2
  exact h2.2.1

theorem moveCore_lengths {succ : Nat → List Nat} {V : List Nat} {refs0 : Nat → Int}
    {R : Nat → Prop} {s : MoveState} (hc : MoveCore succ V refs0 R s) :
    s.young.length + s.pending.length + s.unreachable.length = V.length := by
  have h2 := congrArg Multiset.card hc.ms
  simp at h2
  omega

theorem visit_reachable_step (succ : Nat → List Nat) (V : List Nat) (refs0 : Nat → Int)
    (R : Nat → Prop) (s : MoveState) (u w : Nat)
    (hR : ∀ a b, R a → b ∈ V → b ∈ succ a → R b)
    (hnd : V.Nodup)
    (hc : MoveCore succ V refs0 R s)
    (hu : u ∈ s.young) (hRu : R u) (hw : w ∈ succ u) :
    MoveCore succ V refs0 R (visit_reachable s w) ∧
    (visit_reachable s w).young = s.young ∧
    (∀ v, (visit_reachable s w).refs v = s.refs v ∨ (visit_reachable s w).refs v = 1) ∧
    (w ∈ V → (visit_reachable s w).refs w ≠ 0) ∧
    (visit_reachable s w).pending.length + (visit_reachable s w).unreachable.length =
      s.pending.length + s.unreachable.length := by
  by_cases hin : w ∈ s.young ∨ w ∈ s.pending ∨ w ∈ s.unreachable
  · by_cases hf : s.flag w = true
    · -- w had been moved to unreachable: promote it back to the young list
      have heq : visit_reachable s w =
          { young := s.young
            pending := s.pending ++ [w]
            unreachable := s.unreachable.erase w
            refs := fun v => if v = w then 1 else s.refs v
            flag := fun v => if v = w then false else s.flag v } := by
        unfold visit_reachable
        rw [if_pos hin, if_pos hf]
      have hwU : w ∈ s.unreachable := (hc.flag_iff w).mp hf
      have hUnd : s.unreachable.Nodup := moveCore_unreach_nodup hnd hc
      rw [heq]
      refine ⟨⟨?_, ?_, ?_, ?_, ?_, ?_⟩, rfl, ?_, ?_, ?_⟩
      · -- ms
        show (s.young : Multiset Nat) + ((s.pending ++ [w] : List Nat) : Multiset Nat) +
          ((s.unreachable.erase w : List Nat) : Multiset Nat) = (V : Multiset Nat)
        have hw' : w ∈ (s.unreachable : Multiset Nat) := by simpa using hwU
        rw [← hc.ms]
        simp only [← Multiset.coe_add, Multiset.coe_singleton, ← Multiset.coe_erase]
        conv_rhs => rw [← Multiset.cons_erase hw']
        simp only [← Multiset.singleton_add]
        abel
      · -- flag_iff
        intro v
        by_cases hv : v = w
        · subst hv
          simp [List.Nodup.mem_erase_iff hUnd]
        · simp only [if_neg hv]
          rw [hc.flag_iff v, List.Nodup.mem_erase_iff hUnd]
          exact ⟨fun h => ⟨hv, h⟩, fun h => h.2⟩
      · -- unreach_zero
        intro v hv
        obtain ⟨hvne, hvU⟩ := (List.Nodup.mem_erase_iff hUnd).mp hv
        simp only [if_neg hvne]
        exact hc.unreach_zero v hvU
      · -- refs_cases
        intro v
        by_cases hv : v = w
        · simp [hv]
        · simp only [if_neg hv]
          exact hc.refs_cases v
      · -- sound
        intro v hvV hnz
        by_cases hv : v = w
        · subst hv
          exact hR u v hRu hvV hw
        · simp only [if_neg hv] at hnz
          exact hc.sound v hvV hnz
      · -- young_R
        exact hc.young_R
      · -- refs persist
        intro v
        by_cases hv : v = w
        · simp [hv]
        · simp [hv]
      · -- refs at w nonzero
        intro _
        simp
      · -- lengths
        have hlen : (s.unreachable.erase w).length = s.unreachable.length - 1 :=
          List.length_erase_of_mem hwU
        have hpos : 0 < s.unreachable.length := List.length_pos_of_mem hwU
        simp only [List.length_append, List.length_cons, List.length_nil, hlen]
        omega
    · by_cases hz : s.refs w = 0
      · -- w not yet scanned: tell move_unreachable it is reachable
        have heq : visit_reachable s w =
            { s with refs := fun v => if v = w then 1 else s.refs v } := by
          unfold visit_reachable
          rw [if_pos hin, if_neg hf, if_pos hz]
        have hwnU : w ∉ s.unreachable := fun hwU => hf ((hc.flag_iff w).mpr hwU)
        rw [heq]
        refine ⟨⟨hc.ms, hc.flag_iff, ?_, ?_, ?_, hc.young_R⟩, rfl, ?_, ?_, rfl⟩
        · intro v hv
          have hvne : v ≠ w := by rintro rfl; exact hwnU hv
          simp only [if_neg hvne]
          exact hc.unreach_zero v hv
        · intro v
          by_cases hv : v = w
          · simp [hv]
          · simp only [if_neg hv]
            exact hc.refs_cases v
        · intro v hvV hnz
          by_cases hv : v = w
          · subst hv
            exact hR u v hRu hvV hw
          · simp only [if_neg hv] at hnz
            exact hc.sound v hvV hnz
        · intro v
          by_cases hv : v = w
          · simp [hv]
          · simp [hv]
        · intro _
          simp
      · -- w already has nonzero gc_refs: nothing to do
        have heq : visit_reachable s w = s := by
          unfold visit_reachable
          rw [if_pos hin, if_neg hf, if_neg hz]
        rw [heq]
        exact ⟨hc, rfl, fun v => Or.inl rfl, fun _ => hz, rfl⟩
  · -- w is not linked into any working list (gc->_gc_next == 0)
    have heq : visit_reachable s w = s := by
      unfold visit_reachable
      rw [if_neg hin]
    rw [heq]
    refine ⟨hc, rfl, fun v => Or.inl rfl, ?_, rfl⟩
    intro hwV
    exact absurd ((moveCore_mem_iff hc w).mp hwV) hin

theorem visit_reachable_fold (succ : Nat → List Nat) (V : List Nat) (refs0 : Nat → Int)
    (R : Nat → Prop) (u : Nat)
    (hR : ∀ a b, R a → b ∈ V → b ∈ succ a → R b)
    (hnd : V.Nodup) :
    ∀ (ws : List Nat) (s : MoveState), MoveCore succ V refs0 R s → u ∈ s.young → R u →
      (∀ w ∈ ws, w ∈ succ u) →
      MoveCore succ V refs0 R (ws.foldl visit_reachable s) ∧
      (ws.foldl visit_reachable s).young = s.young ∧
      (∀ v, (ws.foldl visit_reachable s).refs v = s.refs v ∨
        (ws.foldl visit_reachable s).refs v = 1) ∧
      (∀ w ∈ ws, w ∈ V → (ws.foldl visit_reachable s).refs w ≠ 0) ∧
      (ws.foldl visit_reachable s).pending.length +
          (ws.foldl visit_reachable s).unreachable.length =
        s.pending.length + s.unreachable.length := by
  intro ws
  induction ws with
  | nil =>
    intro s hc _ _ _
    exact ⟨hc, rfl, fun v => Or.inl rfl, by simp, rfl⟩
  | cons w ws ih =>
    intro s hc hu hRu hws
    simp only [List.foldl_cons]
    obtain ⟨hc1, hy1, hr1, hw1, hl1⟩ :=
      visit_reachable_step succ V refs0 R s u w hR hnd hc hu hRu
        (hws w (List.mem_cons_self _ _))
    obtain ⟨hc2, hy2, hr2, hw2, hl2⟩ :=
      ih (visit_reachable s w) hc1 (by rw [hy1]; exact hu) hRu
        (fun x hx => hws x (List.mem_cons_of_mem _ hx))
    refine ⟨hc2, hy2.trans hy1, ?_, ?_, hl2.trans hl1⟩
    · intro v
      rcases hr2 v with h2 | h2
      · rcases hr1 v with h1 | h1
        · exact Or.inl (h2.trans h1)
        · exact Or.inr (h2.trans h1)
      · exact Or.inr h2
    · intro x hx hxV
      rcases List.mem_cons.mp hx with rfl | hx
      · rcases hr2 x with h2 | h2
        · rw [h2]
          exact hw1 hxV
        · rw [h2]
          exact one_ne_zero
      · exact hw2 x hx hxV

/-- One reachable-object step of the walk: the object `u` under the cursor
has nonzero `gc_refs`, stays in `young`, and its successors are traversed
with `visit_reachable`. -/
theorem move_step_pos (succ : Nat → List Nat) (V : List Nat) (refs0 : Nat → Int)
    (R : Nat → Prop) (s : MoveState) (u : Nat) (rest : List Nat)
    (hR : ∀ a b, R a → b ∈ V → b ∈ succ a → R b)
    (hnd : V.Nodup)
    (hInv : MoveInv succ V refs0 R s)
    (hp : s.pending = u :: rest)
    (hru : s.refs u ≠ 0) :
    MoveInv succ V refs0 R
      ((succ u).foldl visit_reachable { s with young := s.young ++ [u], pending := rest }) ∧
    ((succ u).foldl visit_reachable
        { s with young := s.young ++ [u], pending := rest }).pending.length +
      ((succ u).foldl visit_reachable
        { s with young := s.young ++ [u], pending := rest }).unreachable.length + 1 =
      s.pending.length + s.unreachable.length := by
  obtain ⟨hc, hcl⟩ := hInv
  have huV : u ∈ V := (moveCore_mem_iff hc u).mpr (Or.inr (Or.inl (by rw [hp]; simp)))
  have hRu : R u := hc.sound u huV hru
  have hms0 : ((s.young ++ [u] : List Nat) : Multiset Nat) + (rest : Multiset Nat) +
      (s.unreachable : Multiset Nat) = (V : Multiset Nat) := by
    have := hc.ms
    rw [hp] at this
    rw [← this, ← Multiset.cons_coe]
    simp only [← Multiset.coe_add, ← Multiset.singleton_add, Multiset.coe_singleton]
    abel
  have hc0 : MoveCore succ V refs0 R { s with young := s.young ++ [u], pending := rest } :=
    { ms := hms0
      flag_iff := hc.flag_iff
      unreach_zero := hc.unreach_zero
      refs_cases := hc.refs_cases
      sound := hc.sound
      young_R := by
        intro v hv
        rcases List.mem_append.mp hv with hv | hv
        · exact hc.young_R v hv
        · rw [List.mem_singleton.mp hv]
          exact hRu }
  obtain ⟨hc1, hy1, hr1, hw1, hl1⟩ :=
    visit_reachable_fold succ V refs0 R u hR hnd (succ u)
      { s with young := s.young ++ [u], pending := rest } hc0
      (by simp) hRu (fun w hw => hw)
  refine ⟨⟨hc1, ?_⟩, ?_⟩
  · -- closure of the scanned prefix, now including u
    intro u' hu' w hw hwV
    rw [hy1] at hu'
    rcases List.mem_append.mp hu' with hu' | hu'
    · -- an object scanned earlier: its successors stayed nonzero
      have hold : s.refs w ≠ 0 := hcl u' hu' w hw hwV
      rcases hr1 w with h | h
      · rw [h]; exact hold
      · rw [h]; exact one_ne_zero
    · -- u itself: its successors were just visited
      rw [List.mem_singleton.mp hu'] at hw
      exact hw1 w hw hwV
  · rw [hl1, hp]
    simp
    omega

/-- One possibly-unreachable step of the walk: the object `u` under the
cursor has `gc_refs == 0` and is moved to `unreachable` with its
`UNREACHABLE` bit set. -/
theorem move_step_zero (succ : Nat → List Nat) (V : List Nat) (refs0 : Nat → Int)
    (R : Nat → Prop) (s : MoveState) (u : Nat) (rest : List Nat)
    (hnd : V.Nodup)
    (hInv : MoveInv succ V refs0 R s)
    (hp : s.pending = u :: rest)
    (hru : s.refs u = 0) :
    MoveInv succ V refs0 R
      { s with pending := rest
               unreachable := s.unreachable ++ [u]
               flag := fun v => if v = u then true else s.flag v } ∧
    rest.length + (s.unreachable ++ [u]).length = s.pending.length + s.unreachable.length := by
  obtain ⟨hc, hcl⟩ := hInv
  have hms1 : (s.young : Multiset Nat) + (rest : Multiset Nat) +
      ((s.unreachable ++ [u] : List Nat) : Multiset Nat) = (V : Multiset Nat) := by
    have := hc.ms
    rw [hp] at this
    rw [← this, ← Multiset.cons_coe]
    simp only [← Multiset.coe_add, ← Multiset.singleton_add, Multiset.coe_singleton]
    abel
  refine ⟨⟨⟨hms1, ?_, ?_, hc.refs_cases, hc.sound, hc.young_R⟩, ?_⟩, ?_⟩
  · intro v
    by_cases hv : v = u
    · subst hv
      simp
    · simp only [if_neg hv]
      rw [hc.flag_iff v, List.mem_append, List.mem_singleton]
      exact ⟨fun h => Or.inl h, fun h => h.elim id fun h => absurd h hv⟩
  · intro v hv
    rcases List.mem_append.mp hv with hv | hv
    · exact hc.unreach_zero v hv
    · rw [List.mem_singleton.mp hv]
      exact hru
  · exact fun u' hu' w hw hwV => hcl u' hu' w hw hwV
  · rw [hp]
    simp
    omega

theorem move_unreachable_fuel_succ (succ : Nat → List Nat) (n : Nat) (s : MoveState) :
    move_unreachable_fuel succ (n + 1) s =
      match s.pending with
      | [] => some s
      | u :: rest =>
        if s.refs u ≠ 0 then
          move_unreachable_fuel succ n
            ((succ u).foldl visit_reachable
              { s with young := s.young ++ [u], pending := rest })
        else
          move_unreachable_fuel succ n
            { s with pending := rest
                     unreachable := s.unreachable ++ [u]
                     flag := fun v => if v = u then true else s.flag v } := rfl

/-- The walk terminates: from any state satisfying the invariant, enough
fuel reaches the sentinel with the invariant preserved.  The measure is
lexicographic: each reachable-object step moves one object from
`unreachable` back into the lists but shrinks `pending + unreachable` by
one; each possibly-unreachable step keeps that sum and shrinks
`pending`. -/
theorem move_unreachable_total (succ : Nat → List Nat) (V : List Nat) (refs0 : Nat → Int)
    (R : Nat → Prop)
    (hR : ∀ a b, R a → b ∈ V → b ∈ succ a → R b)
    (hnd : V.Nodup) :
    ∀ (k : Nat) (s : MoveState),
      (s.pending.length + s.unreachable.length) * (V.length + 1) + s.pending.length ≤ k →
      MoveInv succ V refs0 R s →
      ∃ n s', move_unreachable_fuel succ n s = some s' ∧
        MoveInv succ V refs0 R s' ∧ s'.pending = [] := by
  intro k
  induction k with
  | zero =>
    intro s hk hInv
    cases hp : s.pending with
    | nil => exact ⟨1, s, by rw [move_unreachable_fuel_succ, hp], hInv, hp⟩
    | cons u rest =>
      exfalso
      have hple : s.pending.length ≤ 0 := le_trans (Nat.le_add_left _ _) hk
      rw [hp] at hple
      simp at hple
  | succ k ih =>
    intro s hk hInv
    cases hp : s.pending with
    | nil => exact ⟨1, s, by rw [move_unreachable_fuel_succ, hp], hInv, hp⟩
    | cons u rest =>
      by_cases hru : s.refs u = 0
      · obtain ⟨hInv1, hlen⟩ := move_step_zero succ V refs0 R s u rest hnd hInv hp hru
        have hk1 : (rest.length + (s.unreachable ++ [u]).length) * (V.length + 1) +
            rest.length ≤ k := by
          have hp1 : s.pending.length = rest.length + 1 := by rw [hp]; rfl
          have hAB : (rest.length + (s.unreachable ++ [u]).length) * (V.length + 1) =
              (s.pending.length + s.unreachable.length) * (V.length + 1) := by
            rw [show rest.length + (s.unreachable ++ [u]).length =
              s.pending.length + s.unreachable.length from by omega]
          omega
        obtain ⟨n, s', hrun, hI, hp'⟩ := ih _ hk1 hInv1
        refine ⟨n + 1, s', ?_, hI, hp'⟩
        rw [move_unreachable_fuel_succ, hp]
        dsimp only
        rw [if_neg (not_not_intro hru)]
        exact hrun
      · obtain ⟨hInv1, hlen⟩ := move_step_pos succ V refs0 R s u rest hR hnd hInv hp hru
        have hp1N : ((succ u).foldl visit_reachable
            { s with young := s.young ++ [u], pending := rest }).pending.length ≤
            V.length := by
          have := moveCore_lengths hInv1.1
          omega
        have hk1 : (((succ u).foldl visit_reachable
              { s with young := s.young ++ [u], pending := rest }).pending.length +
            ((succ u).foldl visit_reachable
              { s with young := s.young ++ [u], pending := rest }).unreachable.length) *
              (V.length + 1) +
            ((succ u).foldl visit_reachable
              { s with young := s.young ++ [u], pending := rest }).pending.length ≤ k := by
          have hpge : 1 ≤ s.pending.length := by rw [hp]; simp
          have hAB : (s.pending.length + s.unreachable.length) * (V.length + 1) =
              (((succ u).foldl visit_reachable
                  { s with young := s.young ++ [u], pending := rest }).pending.length +
                ((succ u).foldl visit_reachable
                  { s with young := s.young ++ [u], pending := rest }).unreachable.length) *
                (V.length + 1) + (V.length + 1) := by
            rw [show s.pending.length + s.unreachable.length =
              (((succ u).foldl visit_reachable
                  { s with young := s.young ++ [u], pending := rest }).pending.length +
                ((succ u).foldl visit_reachable
                  { s with young := s.young ++ [u], pending := rest }).unreachable.length) +
                1 from by omega, Nat.succ_mul]
          omega
        obtain ⟨n, s', hrun, hI, hp'⟩ := ih _ hk1 hInv1
        refine ⟨n + 1, s', ?_, hI, hp'⟩
        rw [move_unreachable_fuel_succ, hp]
        dsimp only
        rw [if_pos hru]
        exact hrun

/-- Reading off the partition from the final state: with the cursor at the
sentinel, `young` holds exactly the objects reachable from outside and
`unreachable` the rest, with the `UNREACHABLE` bits matching. -/
theorem move_unreachable_final (succ : Nat → List Nat) (V : List Nat) (refs0 : Nat → Int)
    (root : Nat → Prop) (s : MoveState)
    (hnd : V.Nodup)
    (hInv : MoveInv succ V refs0 (ReachableOutside succ V root) s)
    (hp : s.pending = [])
    (hbase : ∀ v ∈ V, root v → refs0 v ≠ 0) :
    (∀ v, v ∈ s.young ↔ ReachableOutside succ V root v) ∧
    (∀ v ∈ s.young, s.flag v = false) ∧
    (∀ v, v ∈ s.unreachable ↔ v ∈ V ∧ ¬ ReachableOutside succ V root v) ∧
    (∀ v ∈ s.unreachable, s.flag v = true) := by
  obtain ⟨hc, hcl⟩ := hInv
  have hmem : ∀ x, x ∈ V ↔ x ∈ s.young ∨ x ∈ s.unreachable := by
    intro x
    rw [moveCore_mem_iff hc x, hp]
    simp
  have hdisj : ∀ x, x ∈ s.young → x ∈ s.unreachable → False := by
    have h2 : (s.young ++ s.pending ++ s.unreachable).Nodup :=
      (moveCore_perm hc).nodup_iff.mpr hnd
    rw [List.nodup_append] at h2
    intro x hxy hxu
    exact h2.2.2 (List.mem_append_left _ hxy) hxu
  have hRy : ∀ v, ReachableOutside succ V root v → v ∈ s.young := by
    intro v hv
    induction hv with
    | base hvV hroot =>
      rename_i v'
      have hnz : s.refs v' ≠ 0 := by
        rcases hc.refs_cases v' with h | h
        · rw [h]; exact hbase v' hvV hroot
        · rw [h]; exact one_ne_zero
      rcases (hmem v').mp hvV with hy | hu
      · exact hy
      · exact absurd (hc.unreach_zero v' hu) hnz
    | step hru hvV hvsucc ih =>
      rename_i u' v'
      have hnz : s.refs v' ≠ 0 := hcl u' ih v' hvsucc hvV
      rcases (hmem v').mp hvV with hy | hu
      · exact hy
      · exact absurd (hc.unreach_zero v' hu) hnz
  refine ⟨?_, ?_, ?_, ?_⟩
  · intro v
    exact ⟨fun hv => hc.young_R v hv, fun hv => hRy v hv⟩
  · intro v hv
    have hnu : v ∉ s.unreachable := fun hu => hdisj v hv hu
    rcases hb : s.flag v with _ | _
    · rfl
    · exact absurd ((hc.flag_iff v).mp hb) hnu
  · intro v
    constructor
    · intro hu
      refine ⟨(hmem v).mpr (Or.inr hu), fun hr => hdisj v (hRy v hr) hu⟩
    · rintro ⟨hvV, hnr⟩
      rcases (hmem v).mp hvV with hy | hu
      · exact absurd (hc.young_R v hy) hnr
      · exact hu
  · intro v hv
    exact (hc.flag_iff v).mpr hv

/-- C1: after the refcount-subtraction pass, `gc_refs` of every object of
the working set equals its number of references from outside the working
set, so `gc_refs > 0` iff the object is directly referenced from outside;
and `move_unreachable` — the front-to-back walk that re-appends
newly-reachable objects — terminates, leaving in `young` exactly the
objects directly or indirectly reachable from outside the original young
list (with `UNREACHABLE` clear) and moving exactly the others to
`unreachable` (with `UNREACHABLE` set).

The hypotheses state the semantics of the inputs: the working set is
duplicate-free and tracked, and each object's refcount is its number of
in-working-set references plus its number of external references. -/
theorem update_refs_move_unreachable_partition (succ : Nat → List Nat)
    (tracked : Nat → Bool) (refcount : Nat → Int) (external : Nat → Nat)
    (V : List Nat) (flag0 : Nat → Bool)
    (hnd : V.Nodup)
    (htr : ∀ v ∈ V, tracked v = true)
    (hrc : ∀ v ∈ V, refcount v = internalRefs succ V v + (external v : Int))
    (hfl : ∀ v, flag0 v = false) :
    (∀ v ∈ V, subtract_refs succ tracked refcount V v = (external v : Int)) ∧
    (∀ v ∈ V, 0 < subtract_refs succ tracked refcount V v ↔ 0 < external v) ∧
    ∃ n s', move_unreachable_fuel succ n
        (initMoveState V (subtract_refs succ tracked refcount V) flag0) = some s' ∧
      s'.pending = [] ∧
      (∀ v, v ∈ s'.young ↔ ReachableOutside succ V (fun x => 0 < external x) v) ∧
      (∀ v ∈ s'.young, s'.flag v = false) ∧
      (∀ v, v ∈ s'.unreachable ↔
        v ∈ V ∧ ¬ ReachableOutside succ V (fun x => 0 < external x) v) ∧
      (∀ v ∈ s'.unreachable, s'.flag v = true) := by
  have hval : ∀ v ∈ V, subtract_refs succ tracked refcount V v = (external v : Int) := by
    intro v hv
    rw [subtract_refs_apply succ tracked refcount V v hnd hv (htr v hv), hrc v hv]
    ring
  have hpos : ∀ v ∈ V, 0 < subtract_refs succ tracked refcount V v ↔ 0 < external v := by
    intro v hv
    rw [hval v hv]
    exact_mod_cast Iff.rfl
  refine ⟨hval, hpos, ?_⟩
  have hR : ∀ a b, ReachableOutside succ V (fun x => 0 < external x) a → b ∈ V →
      b ∈ succ a → ReachableOutside succ V (fun x => 0 < external x) b :=
    fun a b ha hb hs => ReachableOutside.step ha hb hs
  have hInv0 : MoveInv succ V (subtract_refs succ tracked refcount V)
      (ReachableOutside succ V (fun x => 0 < external x))
      (initMoveState V (subtract_refs succ tracked refcount V) flag0) := by
    unfold initMoveState
    refine ⟨⟨?_, ?_, ?_, ?_, ?_, ?_⟩, ?_⟩
    · simp
    · intro v
      simp [hfl v]
    · intro v hv
      simp at hv
    · intro v
      exact Or.inl rfl
    · intro v hvV hnz
      refine ReachableOutside.base hvV ?_
      simp only at hnz
      rw [hval v hvV] at hnz
      exact_mod_cast Nat.pos_of_ne_zero (by exact_mod_cast hnz)
    · intro v hv
      simp at hv
    · intro u hu
      simp at hu
  obtain ⟨n, s', hrun, hI, hp⟩ :=
    move_unreachable_total succ V (subtract_refs succ tracked refcount V)
      (ReachableOutside succ V (fun x => 0 < external x)) hR hnd
      (((initMoveState V (subtract_refs succ tracked refcount V) flag0).pending.length +
          (initMoveState V (subtract_refs succ tracked refcount V)
            flag0).unreachable.length) * (V.length + 1) +
        (initMoveState V (subtract_refs succ tracked refcount V) flag0).pending.length)
      (initMoveState V (subtract_refs succ tracked refcount V) flag0)
      (Nat.le_refl _) hInv0
  have hbase : ∀ v ∈ V, (fun x => 0 < external x) v →
      subtract_refs succ tracked refcount V v ≠ 0 := by
    intro v hv hr
    rw [hval v hv]
    have h0 : external v ≠ 0 := Nat.pos_iff_ne_zero.mp hr
    exact_mod_cast h0
  obtain ⟨h1, h2, h3, h4⟩ :=
    move_unreachable_final succ V (subtract_refs succ tracked refcount V)
      (fun x => 0 < external x) s' hnd hI hp hbase
  exact ⟨n, s', hrun, hp, h1, h2, h3, h4⟩

/-- C1 witness: the pipeline on the concrete working set `[1, 2, 3]` where
1 and 2 form an unreferenced cycle and the externally-referenced 3 refers
to 1. -/
theorem update_refs_move_unreachable_partition_witness :
    ([1, 2, 3] : List Nat).Nodup ∧
    (∀ v ∈ ([1, 2, 3] : List Nat), (fun _ : Nat => true) v = true) ∧
    (∀ v ∈ ([1, 2, 3] : List Nat),
      exRefcount v = internalRefs exSucc [1, 2, 3] v + (exExternal v : Int)) ∧
    (∀ v : Nat, (fun _ : Nat => false) v = false) ∧
    ((∀ v ∈ ([1, 2, 3] : List Nat),
      subtract_refs exSucc (fun _ => true) exRefcount [1, 2, 3] v = (exExternal v : Int)) ∧
    (∀ v ∈ ([1, 2, 3] : List Nat),
      0 < subtract_refs exSucc (fun _ => true) exRefcount [1, 2, 3] v ↔ 0 < exExternal v) ∧
    ∃ n s', move_unreachable_fuel exSucc n
        (initMoveState [1, 2, 3] (subtract_refs exSucc (fun _ => true) exRefcount [1, 2, 3])
          (fun _ => false)) = some s' ∧
      s'.pending = [] ∧
      (∀ v, v ∈ s'.young ↔ ReachableOutside exSucc [1, 2, 3] (fun x => 0 < exExternal x) v) ∧
      (∀ v ∈ s'.young, s'.flag v = false) ∧
      (∀ v, v ∈ s'.unreachable ↔
        v ∈ [1, 2, 3] ∧ ¬ ReachableOutside exSucc [1, 2, 3] (fun x => 0 < exExternal x) v) ∧
      (∀ v ∈ s'.unreachable, s'.flag v = true)) :=
  ⟨by decide, by decide, by decide, fun _ => rfl,
    update_refs_move_unreachable_partition exSucc (fun _ => true) exRefcount exExternal
      [1, 2, 3] (fun _ => false) (by decide) (by decide) (by decide) (fun _ => rfl)⟩

end Nogil
